/-
Verification of the timestamp-alignment and conversion-orchestration layer of
the neuroconv repository, together with its metadata-form adapters and the
ScanImage interface construction.  Data interfaces own per-column timestamp
stores; alignment either replaces a store wholesale or maps it through a
piecewise-linear interpolant; an orchestrator holds a registry of interfaces,
deep-merges their metadata dictionaries and drives a single output-writing
pass.
-/
import Mathlib

namespace Neuroconv

/-- Modelled from the spec: a timestamp sequence is an ordered sequence of
floating-point seconds (spec §3); modelled as exact rationals. -/
abbrev Timestamps := List ℚ

/-- Modelled from the spec: error kinds of the alignment layer (spec §7): a
length mismatch on direct replacement, a missing reference channel/column,
and a missing interface name in the orchestrator registry. -/
inductive AlignError where
  | lengthMismatch
  | missingReferenceChannel
  | missingInterface
deriving DecidableEq

/-- Modelled from the spec: a `DataInterface` owns a per-interface
TimestampStore (spec §4.1), here a mapping from column/selector name to its
timestamp sequence (`CsvTimeIntervalsInterface` keeps one sequence per column
such as `start_time` and `stop_time`; single-stream interfaces use one fixed
column name). -/
structure DataInterface where
  columns : List (String × Timestamps)
deriving DecidableEq

/-- Modelled from the spec: `get_timestamps(selector)` returns the current
timestamps for the requested column; a missing column is a lookup failure
(spec §4.1, §7 MissingReferenceChannel). -/
def get_timestamps (d : DataInterface) (column : String) : Option Timestamps :=
  d.columns.lookup column

/-- Modelled from the spec: in-place overwrite of one column of the store,
leaving every other column untouched (dict/DataFrame column assignment). -/
def set_column : List (String × Timestamps) → String → Timestamps →
    List (String × Timestamps)
  | [], _, _ => []
  | (k, v) :: rest, column, ts =>
      if k = column then (k, ts) :: rest else (k, v) :: set_column rest column ts

/-- Modelled from the spec: `align_timestamps(aligned_timestamps, selector)`
replaces the stored sequence for that selector wholesale with the supplied
array, failing with a LengthMismatch when the supplied length differs from the
stored length, with no partial mutation (spec §4.1, §7).  The returned pair is
the post-call interface state together with the surfaced error, if any. -/
def align_timestamps (d : DataInterface) (aligned_timestamps : Timestamps)
    (column : String) : DataInterface × Option AlignError :=
  match get_timestamps d column with
  | none => (d, some .missingReferenceChannel)
  | some ts =>
      if aligned_timestamps.length = ts.length then
        (⟨set_column d.columns column aligned_timestamps⟩, none)
      else (d, some .lengthMismatch)

/-- Modelled from the spec: one linear segment of the interpolant through
`(x0, y0)` and `(x1, y1)`, evaluated at `x`. -/
def lin (x0 y0 x1 y1 x : ℚ) : ℚ :=
  y0 + (x - x0) * ((y1 - y0) / (x1 - x0))

/-- Modelled from the spec: the monotonic piecewise-linear interpolant through
the control points `(unaligned_timestamps[i], aligned_timestamps[i])`
(spec §4.2).  Inside the convex hull of the control abscissae each query is
mapped by the segment it falls in; outside the hull the nearest segment is
extended, giving the linear extrapolation the spec describes as deliberate. -/
def interp : List (ℚ × ℚ) → ℚ → ℚ
  | [], _ => 0
  | p :: tl, x =>
      match tl with
      | [] => p.2
      | q :: tl' =>
          if tl' = [] ∨ x ≤ q.1 then lin p.1 p.2 q.1 q.2 x
          else interp tl x

/-- Modelled from the spec:
`align_by_interpolation(aligned_timestamps, unaligned_timestamps)` builds the
piecewise-linear interpolant from the control points and maps every currently
stored timestamp of the selected column through it, replacing the store in
place via `align_timestamps` (spec §4.2). -/
def align_by_interpolation (d : DataInterface)
    (aligned_timestamps unaligned_timestamps : Timestamps) (column : String) :
    DataInterface × Option AlignError :=
  match get_timestamps d column with
  | none => (d, some .missingReferenceChannel)
  | some ts =>
      align_timestamps d
        (ts.map (interp (unaligned_timestamps.zip aligned_timestamps))) column

/-- Modelled from the spec: the orchestrator owns a registry mapping logical
names to `DataInterface` instances for the lifetime of one conversion run
(spec §3, `data_interface_objects`). -/
structure ConverterPipe where
  data_interface_objects : List (String × DataInterface)
deriving DecidableEq

/-- Modelled from the spec: apply an operation to the single registry entry
with the given name, leaving every other interface untouched; a missing name
is a lookup failure. -/
def apply_first (l : List (String × DataInterface)) (name : String)
    (f : DataInterface → DataInterface × Option AlignError) :
    List (String × DataInterface) × Option AlignError :=
  match l with
  | [] => ([], some .missingInterface)
  | (k, d) :: rest =>
      if k = name then ((k, (f d).1) :: rest, (f d).2)
      else
        let r := apply_first rest name f
        ((k, d) :: r.1, r.2)

/-- Modelled from the spec: caller-driven `align_timestamps` on one named
interface of the registry. -/
def pipe_align_timestamps (c : ConverterPipe) (name : String)
    (aligned_timestamps : Timestamps) (column : String) :
    ConverterPipe × Option AlignError :=
  let r := apply_first c.data_interface_objects name
    (fun d => align_timestamps d aligned_timestamps column)
  (⟨r.1⟩, r.2)

/-- Modelled from the spec: caller-driven `align_by_interpolation` on one
named interface of the registry; the reference timeline reaches the interface
only as the explicit array arguments. -/
def pipe_align_by_interpolation (c : ConverterPipe) (name : String)
    (aligned_timestamps unaligned_timestamps : Timestamps) (column : String) :
    ConverterPipe × Option AlignError :=
  let r := apply_first c.data_interface_objects name
    (fun d => align_by_interpolation d aligned_timestamps unaligned_timestamps column)
  (⟨r.1⟩, r.2)

/-- Modelled from the spec: read one named interface's timestamps through the
registry. -/
def pipe_get_timestamps (c : ConverterPipe) (name : String) (column : String) :
    Option Timestamps :=
  (c.data_interface_objects.lookup name).bind (fun d => get_timestamps d column)

/-- Modelled from the spec: a metadata value is either a scalar leaf or a
nested mapping from keys to metadata values (the "deep dictionary" of
spec §4.3). -/
inductive Metadata where
  | leaf : String → Metadata
  | node : List (String × Metadata) → Metadata

mutual

/-- Modelled from the spec: the recursive deep merge of per-interface
metadata dictionaries (spec §4.3): nested mappings are merged recursively,
while any other later value (in particular a scalar leaf) wins wholesale —
last-writer-wins at leaves. -/
def dict_deep_update : Metadata → Metadata → Metadata
  | .node a, .node b =>
      .node (merge_old a b ++ b.filter (fun q => (a.lookup q.1).isNone))
  | _, b => b

/-- Modelled from the spec: the earlier dictionary's entries after a deep
merge — entries whose key also occurs in the later dictionary are merged
recursively, the rest survive unchanged. -/
def merge_old : List (String × Metadata) → List (String × Metadata) →
    List (String × Metadata)
  | [], _ => []
  | (k, v) :: rest, b =>
      (match b.lookup k with
       | some w => (k, dict_deep_update v w)
       | none => (k, v)) :: merge_old rest b

end

/-- Modelled from the spec: look a nested key path up in a metadata value;
the empty path returns the value itself, and a scalar leaf has no children. -/
def lookup_path : List String → Metadata → Option Metadata
  | [], m => some m
  | k :: ks, m =>
      match m with
      | .leaf _ => none
      | .node es =>
          match es.lookup k with
          | some v => lookup_path ks v
          | none => none

/-- Modelled from the spec: the output container file at the target path,
reduced to the ordered list of data blocks written into it. -/
structure NWBFile where
  contents : List String
deriving DecidableEq

/-- Modelled from the spec: a failure raised by an interface's
data-materialization step or by the container write (spec §7 WriteFailure);
such errors propagate to the caller uncaught. -/
inductive ConversionError where
  | failure : String → ConversionError
deriving DecidableEq

/-- Resource events on the output container: the `make_or_load_nwbfile`
context manager acquires it on entry and releases it on exit. -/
inductive ResourceEvent where
  | acquire
  | release
deriving DecidableEq

/-- Modelled from the spec: `make_or_load_nwbfile` together with the body of
`BaseDataInterface.run_conversion` (the context manager itself is not under
src/; the `with` statement entering it is, at
`src/neuroconv/basedatainterface.py` lines 72-78).  Per the `run_conversion`
docstring there, `overwrite=False` is append mode — an existing file at
`nwbfile_path` is loaded and appended to — while `overwrite=True` starts from
a fresh file built from metadata.  `add_to_nwbfile` runs inside the context
and may fail; the context is exited on every path.  The result is the file
now at the path, the error surfaced to the caller (if any), and the
resource-event trace of the output container. -/
def run_conversion (existing : Option NWBFile) (overwrite : Bool)
    (fresh : NWBFile)
    (add_to_nwbfile : NWBFile → Except ConversionError NWBFile) :
    (Option NWBFile × Option ConversionError) × List ResourceEvent :=
  let start := if overwrite then fresh else existing.getD fresh
  match add_to_nwbfile start with
  | .ok f => ((some f, none), [.acquire, .release])
  | .error e => ((existing, some e), [.acquire, .release])

/-- An `add_to_nwbfile` step that appends the interface's data blocks to the
in-context file and succeeds. -/
def append_body (blocks : List String) : NWBFile → Except ConversionError NWBFile :=
  fun f => .ok ⟨f.contents ++ blocks⟩

/-- A text field of the metadata GUI as the numeric parser sees it: either
text that Python `float()` parses to a value, or unparsable text. -/
inductive FieldText where
  | numeric : ℚ → FieldText
  | unparsable : String → FieldText
deriving DecidableEq

/-- Python `float()` applied to a field text: the parsed value, or `none`
when the call would raise. -/
def float_of_text : FieldText → Option ℚ
  | .numeric v => some v
  | .unparsable _ => none

/-- The fields read by `GroupOpticalChannel.read_fields`
(`nwbn_conversion_tools/gui/classes/forms.py` lines 385-395). -/
structure OpticalChannelForm where
  name : String
  description : String
  emission_lambda : FieldText
deriving DecidableEq

/-- The dictionary returned by `GroupOpticalChannel.read_fields`. -/
structure OpticalChannelData where
  name : String
  description : String
  emission_lambda : ℚ
deriving DecidableEq

/-- `GroupOpticalChannel.read_fields` (forms.py lines 385-395): reads the
fields; an unparsable `emission_lambda` is replaced by the sentinel `0.0` and
a warning line is printed (returned here as the second component). -/
def optical_channel_read_fields (f : OpticalChannelForm) :
    OpticalChannelData × List String :=
  match float_of_text f.emission_lambda with
  | some v => (⟨f.name, f.description, v⟩, [])
  | none => (⟨f.name, f.description, 0⟩, ["emission_lambda must be a float"])

/-- The fields read by `GroupImagingPlane.read_fields`
(`nwbn_conversion_tools/gui/classes/forms.py` lines 509-529). -/
structure ImagingPlaneForm where
  name : String
  description : String
  excitation_lambda : FieldText
  imaging_rate : FieldText
  indicator : String
  location : String
  conversion : FieldText
  unit : String
deriving DecidableEq

/-- The dictionary returned by `GroupImagingPlane.read_fields`. -/
structure ImagingPlaneData where
  name : String
  description : String
  excitation_lambda : ℚ
  imaging_rate : ℚ
  indicator : String
  location : String
  conversion : ℚ
  unit : String
deriving DecidableEq

/-- `GroupImagingPlane.read_fields` (forms.py lines 509-529): each of the
three numeric fields falls back to the sentinel `0.0` when unparsable; no
warning is printed on any of these fallbacks (the returned print log is
always empty). -/
def imaging_plane_read_fields (f : ImagingPlaneForm) :
    ImagingPlaneData × List String :=
  (⟨f.name, f.description, (float_of_text f.excitation_lambda).getD 0,
    (float_of_text f.imaging_rate).getD 0, f.indicator, f.location,
    (float_of_text f.conversion).getD 0, f.unit⟩, [])

/-- The assertion failures `ScanImageImagingInterface.__init__` can raise
before the extractor is initialized. -/
inductive ScanImageInitError where
  | assertionNoScanImageTiffReader
  | assertionNoSamplingFrequency
deriving DecidableEq

/-- The state handed to the extractor initialization
(`super().__init__(file_path=..., sampling_frequency=...)`); it exists only
when construction did not fail beforehand. -/
structure ScanImageState where
  sampling_frequency : ℚ
deriving DecidableEq

/-- `ScanImageImagingInterface.__init__`
(`src/nwb_conversion_tools/datainterfaces/ophys/scanimage/scanimageimaginginterface.py`
lines 49-82): asserts the reader package is available, extracts the tiff
metadata (passed here already extracted, with values given as the rationals
that Python `float()` produces on them), takes the sampling frequency from
the `state.acq.frameRate` key when present — ignoring any fallback —
otherwise from `fallback_sampling_frequency`, and fails with an assertion
error, before the extractor state is constructed, when neither is
available. -/
def scanimage_init (have_scan_image_tiff : Bool)
    (image_metadata : List (String × ℚ))
    (fallback_sampling_frequency : Option ℚ) :
    Except ScanImageInitError ScanImageState :=
  if have_scan_image_tiff then
    match image_metadata.lookup "state.acq.frameRate" with
    | some v => .ok ⟨v⟩
    | none =>
        match fallback_sampling_frequency with
        | some f => .ok ⟨f⟩
        | none => .error .assertionNoSamplingFrequency
  else .error .assertionNoScanImageTiffReader

/-- The unaligned trial start times of the temporal-alignment test scenario
(`tests/test_on_data/test_temporal_alignment/test_ophys_interfaces_alignment.py`):
ten trials starting at 0, 1, ..., 9 seconds on the trial tracking clock. -/
def unaligned_trial_start_times : Timestamps :=
  [0, 1, 2, 3, 4, 5, 6, 7, 8, 9]

/-- The aligned trial start times of the scenario:
`linspace(3.23, 10 + 0.0001 * 10, 10)`, whose i-th value is exactly
`3.23 + i * (6.771 / 9) = (9690 + 2257 * i) / 3000`. -/
def aligned_trial_start_times : Timestamps :=
  [9690/3000, 11947/3000, 14204/3000, 16461/3000, 18718/3000,
   20975/3000, 23232/3000, 25489/3000, 27746/3000, 30003/3000]

/-- The value of a segment at its left control point is the left ordinate. -/
theorem lin_left {x0 y0 x1 y1 : ℚ} : lin x0 y0 x1 y1 x0 = y0 := by
  simp [lin]

/-- The value of a segment at its right control point is the right ordinate,
provided the segment is not degenerate. -/
theorem lin_right {x0 y0 x1 y1 : ℚ} (hx : x0 < x1) : lin x0 y0 x1 y1 x1 = y1 := by
  have h0 : x1 - x0 ≠ 0 := sub_ne_zero.mpr (ne_of_gt hx)
  unfold lin
  field_simp

/-- A segment through strictly increasing control points is strictly
monotone. -/
theorem lin_strict_mono {x0 y0 x1 y1 x y : ℚ} (hx : x0 < x1) (hy : y0 < y1)
    (hxy : x < y) : lin x0 y0 x1 y1 x < lin x0 y0 x1 y1 y := by
  have hs : 0 < (y1 - y0) / (x1 - x0) := div_pos (by linarith) (by linarith)
  have h := mul_lt_mul_of_pos_right (sub_lt_sub_right hxy x0) hs
  unfold lin
  linarith

/-- A segment through strictly increasing control points is monotone. -/
theorem lin_mono {x0 y0 x1 y1 x y : ℚ} (hx : x0 < x1) (hy : y0 < y1)
    (hxy : x ≤ y) : lin x0 y0 x1 y1 x ≤ lin x0 y0 x1 y1 y := by
  have hs : 0 ≤ (y1 - y0) / (x1 - x0) := le_of_lt (div_pos (by linarith) (by linarith))
  have h := mul_le_mul_of_nonneg_right (sub_le_sub_right hxy x0) hs
  unfold lin
  linarith

/-- Left of the right control point, a segment stays at or below the right
ordinate. -/
theorem lin_le_right {x0 y0 x1 y1 x : ℚ} (hx : x0 < x1) (hy : y0 < y1)
    (hxl : x ≤ x1) : lin x0 y0 x1 y1 x ≤ y1 := by
  calc lin x0 y0 x1 y1 x ≤ lin x0 y0 x1 y1 x1 := lin_mono hx hy hxl
    _ = y1 := lin_right hx

/-- Unfolding equation of `interp` on a list with at least two points. -/
theorem interp_cons_cons (p q : ℚ × ℚ) (tl' : List (ℚ × ℚ)) (x : ℚ) :
    interp (p :: q :: tl') x =
      if tl' = [] ∨ x ≤ q.1 then lin p.1 p.2 q.1 q.2 x
      else interp (q :: tl') x := rfl

/-- With exactly two control points the interpolant is the single segment. -/
theorem interp_two (p q : ℚ × ℚ) (x : ℚ) :
    interp [p, q] x = lin p.1 p.2 q.1 q.2 x := by
  rw [interp_cons_cons, if_pos (Or.inl rfl)]

/-- Queries at or left of the second abscissa use the first segment. -/
theorem interp_of_le (p q : ℚ × ℚ) (tl' : List (ℚ × ℚ)) (x : ℚ) (h : x ≤ q.1) :
    interp (p :: q :: tl') x = lin p.1 p.2 q.1 q.2 x := by
  rw [interp_cons_cons, if_pos (Or.inr h)]

/-- Queries right of the second abscissa recurse on the tail when it keeps at
least two points. -/
theorem interp_of_gt (p q : ℚ × ℚ) (tl' : List (ℚ × ℚ)) (x : ℚ)
    (hne : tl' ≠ []) (h : ¬ x ≤ q.1) :
    interp (p :: q :: tl') x = interp (q :: tl') x := by
  rw [interp_cons_cons, if_neg ?hcond]
  case hcond =>
    rintro (hc | hc)
    · exact hne hc
    · exact h hc

/-- The interpolant takes the head control point to its ordinate. -/
theorem interp_cons_self (p : ℚ × ℚ) (tl : List (ℚ × ℚ))
    (h : List.Chain' (fun a b : ℚ × ℚ => a.1 < b.1) (p :: tl)) :
    interp (p :: tl) p.1 = p.2 := by
  cases tl with
  | nil => rfl
  | cons q tl' =>
      rw [List.chain'_cons] at h
      rw [interp_cons_cons, if_pos (Or.inr (le_of_lt h.1))]
      exact lin_left

/-- In a chain of control points with strictly increasing abscissae, the head
abscissa is below every later abscissa. -/
theorem chain_head_lt (q : ℚ × ℚ) (tl : List (ℚ × ℚ))
    (hch : List.Chain' (fun a b : ℚ × ℚ => a.1 < b.1) (q :: tl)) :
    ∀ p ∈ tl, q.1 < p.1 := by
  induction tl generalizing q with
  | nil => intro p hp; cases hp
  | cons r tl'' ih =>
      rw [List.chain'_cons] at hch
      intro p hp
      rcases List.mem_cons.mp hp with rfl | hp'
      · exact hch.1
      · exact lt_trans hch.1 (ih r hch.2 p hp')

/-- The interpolant maps every control abscissa to its control ordinate. -/
theorem interp_mem :
    ∀ (l : List (ℚ × ℚ)), List.Chain' (fun a b : ℚ × ℚ => a.1 < b.1) l →
      ∀ p ∈ l, interp l p.1 = p.2 := by
  intro l
  induction l with
  | nil => intro _ p hp; cases hp
  | cons p0 tl ih =>
      intro hch p hp
      rcases List.mem_cons.mp hp with rfl | hp'
      · exact interp_cons_self _ _ hch
      · cases tl with
        | nil => cases hp'
        | cons q tl' =>
            rw [List.chain'_cons] at hch
            obtain ⟨h01, hch'⟩ := hch
            rcases List.mem_cons.mp hp' with rfl | hp''
            · rw [interp_of_le p0 p tl' p.1 le_rfl, lin_right h01]
            · have hq : q.1 < p.1 := chain_head_lt q tl' hch' p hp''
              have hne : tl' ≠ [] := by
                intro h; rw [h] at hp''; cases hp''
              rw [interp_of_gt p0 q tl' p.1 hne (not_le.mpr hq)]
              exact ih hch' p hp'

/-- The piecewise-linear interpolant through control points that are strictly
increasing in both coordinates is strictly monotone on all of `ℚ`, the
extrapolation regions included. -/
theorem interp_strict_mono :
    ∀ (l : List (ℚ × ℚ)), 2 ≤ l.length →
      List.Chain' (fun a b : ℚ × ℚ => a.1 < b.1 ∧ a.2 < b.2) l →
      ∀ x y : ℚ, x < y → interp l x < interp l y := by
  intro l
  induction l with
  | nil => intro h; simp at h
  | cons p tl ih =>
      intro hlen hchain x y hxy
      cases tl with
      | nil => simp at hlen
      | cons q tl' =>
          rw [List.chain'_cons] at hchain
          obtain ⟨⟨hx1, hy1⟩, hch⟩ := hchain
          cases tl' with
          | nil =>
              rw [interp_two p q x, interp_two p q y]
              exact lin_strict_mono hx1 hy1 hxy
          | cons r ts =>
              have hlen' : 2 ≤ (q :: r :: ts).length := by
                simp [List.length_cons]
              have hne : (r :: ts : List (ℚ × ℚ)) ≠ [] := List.cons_ne_nil r ts
              by_cases hy2 : y ≤ q.1
              · rw [interp_of_le p q (r :: ts) x (le_of_lt (lt_of_lt_of_le hxy hy2)),
                  interp_of_le p q (r :: ts) y hy2]
                exact lin_strict_mono hx1 hy1 hxy
              · rw [interp_of_gt p q (r :: ts) y hne hy2]
                have hq1y : q.1 < y := not_le.mp hy2
                by_cases hx2 : x ≤ q.1
                · rw [interp_of_le p q (r :: ts) x hx2]
                  have h1 : lin p.1 p.2 q.1 q.2 x ≤ q.2 := lin_le_right hx1 hy1 hx2
                  have h2 : interp (q :: r :: ts) q.1 = q.2 :=
                    interp_cons_self _ _ (hch.imp (fun _ _ hab => hab.1))
                  have h3 := ih hlen' hch q.1 y hq1y
                  calc lin p.1 p.2 q.1 q.2 x ≤ q.2 := h1
                    _ = interp (q :: r :: ts) q.1 := h2.symm
                    _ < interp (q :: r :: ts) y := h3
                · rw [interp_of_gt p q (r :: ts) x hne hx2]
                  exact ih hlen' hch x y hxy

/-- Zipping two equally long strictly increasing sequences yields control
points that are strictly increasing in both coordinates. -/
theorem chain_lt_zip :
    ∀ (u a : Timestamps), u.length = a.length →
      List.Chain' (· < ·) u → List.Chain' (· < ·) a →
      List.Chain' (fun p q : ℚ × ℚ => p.1 < q.1 ∧ p.2 < q.2) (u.zip a) := by
  intro u
  induction u with
  | nil => intro a _ _ _; simp
  | cons x u' ih =>
      intro a hlen hu ha
      cases a with
      | nil => simp at hlen
      | cons y a' =>
          cases u' with
          | nil =>
              cases a' with
              | nil => simp
              | cons y2 a'' => simp at hlen
          | cons x2 u'' =>
              cases a' with
              | nil => simp at hlen
              | cons y2 a'' =>
                  rw [List.chain'_cons] at hu ha
                  have hlen' : (x2 :: u'').length = (y2 :: a'').length := by
                    simp only [List.length_cons] at hlen ⊢
                    omega
                  have htail := ih (y2 :: a'') hlen' hu.2 ha.2
                  simp only [List.zip_cons_cons] at htail ⊢
                  rw [List.chain'_cons]
                  exact ⟨⟨hu.1, ha.1⟩, htail⟩

/-- Mapping the control abscissae themselves through the interpolant returns
exactly the control ordinates. -/
theorem map_interp_self (u a : Timestamps) (hlen : u.length = a.length)
    (hu : List.Chain' (· < ·) u) (ha : List.Chain' (· < ·) a) :
    u.map (interp (u.zip a)) = a := by
  have hz : List.Chain' (fun p q : ℚ × ℚ => p.1 < q.1) (u.zip a) :=
    (chain_lt_zip u a hlen hu ha).imp (fun _ _ hab => hab.1)
  apply List.ext_getElem
  · rw [List.length_map]; exact hlen
  · intro i h1 h2
    rw [List.length_map] at h1
    have hzi : i < (u.zip a).length := by
      rw [List.length_zip]; omega
    have hmem : (u.zip a)[i] ∈ u.zip a := List.getElem_mem hzi
    have := interp_mem (u.zip a) hz _ hmem
    rw [List.getElem_zip] at this
    simp only [List.getElem_map]
    exact this

/-- After `set_column`, reading the written column returns the new value,
provided the column existed before. -/
theorem lookup_set_column_self :
    ∀ (l : List (String × Timestamps)) (c : String) (v ts : Timestamps),
      l.lookup c = some v → (set_column l c ts).lookup c = some ts := by
  intro l
  induction l with
  | nil => intro c v ts h; simp at h
  | cons p rest ih =>
      intro c v ts h
      obtain ⟨k, w⟩ := p
      by_cases hk : k = c
      · subst hk
        simp [set_column, List.lookup_cons]
      · have hck : (c == k) = false := beq_eq_false_iff_ne.mpr (Ne.symm hk)
        rw [List.lookup_cons, hck] at h
        simp only [set_column, if_neg hk, List.lookup_cons, hck]
        exact ih c v ts h

/-- Writing a column's current value back with `set_column` is the
identity. -/
theorem set_column_lookup_eq :
    ∀ (l : List (String × Timestamps)) (c : String) (v : Timestamps),
      l.lookup c = some v → set_column l c v = l := by
  intro l
  induction l with
  | nil => intro c v h; simp at h
  | cons p rest ih =>
      intro c v h
      obtain ⟨k, w⟩ := p
      by_cases hk : k = c
      · subst hk
        rw [List.lookup_cons, beq_self_eq_true, Option.some.injEq] at h
        simp [set_column, h]
      · have hck : (c == k) = false := beq_eq_false_iff_ne.mpr (Ne.symm hk)
        rw [List.lookup_cons, hck] at h
        simp only [set_column, if_neg hk]
        rw [ih c v h]

/-- When the selected column exists, `align_by_interpolation` reduces to a
direct `align_timestamps` with the interpolated store. -/
theorem align_by_interpolation_get (d : DataInterface)
    (aligned unaligned : Timestamps) (column : String) (ts : Timestamps)
    (h : get_timestamps d column = some ts) :
    align_by_interpolation d aligned unaligned column
      = align_timestamps d (ts.map (interp (unaligned.zip aligned))) column := by
  unfold align_by_interpolation
  rw [h]

/-- When the supplied array matches the stored length, `align_timestamps`
replaces the column and reports no error. -/
theorem align_timestamps_ok (d : DataInterface) (v ts : Timestamps)
    (column : String) (hget : get_timestamps d column = some ts)
    (hlen : v.length = ts.length) :
    align_timestamps d v column = (⟨set_column d.columns column v⟩, none) := by
  unfold align_timestamps
  rw [hget]
  exact if_pos hlen

/-- C1 (amended): an interpolation alignment with strictly increasing
`aligned_timestamps`, strictly increasing `unaligned_timestamps` of the same
length with at least two control points, applied to an interface whose
stored sequence for the column is itself strictly increasing, yields a
strictly increasing `get_timestamps` result — the monotone interpolant
preserves the relative ordering of events. -/
theorem c1_align_by_interpolation_order (d : DataInterface) (column : String)
    (ts aligned unaligned : Timestamps)
    (hget : get_timestamps d column = some ts)
    (hts : List.Chain' (· < ·) ts)
    (ha : List.Chain' (· < ·) aligned)
    (hu : List.Chain' (· < ·) unaligned)
    (hlen : unaligned.length = aligned.length)
    (h2 : 2 ≤ unaligned.length) :
    ∃ out,
      get_timestamps (align_by_interpolation d aligned unaligned column).1 column
          = some out
        ∧ List.Chain' (· < ·) out := by
  have hz := chain_lt_zip unaligned aligned hlen hu ha
  have hlz : 2 ≤ (unaligned.zip aligned).length := by
    rw [List.length_zip]; omega
  refine ⟨ts.map (interp (unaligned.zip aligned)), ?_, ?_⟩
  · rw [align_by_interpolation_get d aligned unaligned column ts hget,
      align_timestamps_ok d _ ts column hget (List.length_map ts _)]
    exact lookup_set_column_self d.columns column ts _ hget
  · rw [List.chain'_map]
    exact hts.imp (fun _ _ hab => interp_strict_mono _ hlz hz _ _ hab)

/-- Witness for C1 at a concrete input. -/
theorem c1_witness :
    ∃ out,
      get_timestamps (align_by_interpolation ⟨[("t", [1, 2])]⟩ [0, 10] [0, 10] "t").1 "t"
          = some out
        ∧ List.Chain' (· < ·) out :=
  c1_align_by_interpolation_order ⟨[("t", [1, 2])]⟩ "t" [1, 2] [0, 10] [0, 10]
    rfl
    (by norm_num [List.chain'_cons, List.chain'_singleton])
    (by norm_num [List.chain'_cons, List.chain'_singleton])
    (by norm_num [List.chain'_cons, List.chain'_singleton])
    rfl (by norm_num)

/-- Counterexample to C1 as stated: three concrete runs in which every
hypothesis of the claim holds — the stored sequence is non-empty,
`aligned_timestamps` is strictly increasing, `unaligned_timestamps` is sorted
ascending and of the same length — yet the aligned `get_timestamps` result is
not strictly increasing: a store with tied timestamps, a reference with tied
unaligned control points, and a reference with a single control point. -/
theorem c1_counterexample :
    (List.Chain' (· < ·) ([0, 1] : Timestamps)
      ∧ List.Chain' (· ≤ ·) ([0, 1] : Timestamps)
      ∧ get_timestamps (align_by_interpolation ⟨[("t", [0, 0])]⟩ [0, 1] [0, 1] "t").1 "t"
          = some [0, 0]
      ∧ ¬ List.Chain' (· < ·) ([0, 0] : Timestamps))
    ∧ (List.Chain' (· < ·) ([1, 2] : Timestamps)
      ∧ List.Chain' (· ≤ ·) ([0, 0] : Timestamps)
      ∧ get_timestamps (align_by_interpolation ⟨[("t", [0, 1])]⟩ [1, 2] [0, 0] "t").1 "t"
          = some [1, 1]
      ∧ ¬ List.Chain' (· < ·) ([1, 1] : Timestamps))
    ∧ (List.Chain' (· < ·) ([5] : Timestamps)
      ∧ List.Chain' (· ≤ ·) ([0] : Timestamps)
      ∧ get_timestamps (align_by_interpolation ⟨[("t", [0, 1])]⟩ [5] [0] "t").1 "t"
          = some [5, 5]
      ∧ ¬ List.Chain' (· < ·) ([5, 5] : Timestamps)) := by
  refine ⟨⟨?_, ?_, ?_, ?_⟩, ⟨?_, ?_, ?_, ?_⟩, ⟨?_, ?_, ?_, ?_⟩⟩ <;>
    norm_num [align_by_interpolation, align_timestamps, get_timestamps, set_column,
      interp, lin, List.lookup_cons, List.zip_cons_cons,
      List.chain'_cons, List.chain'_singleton]

/-- C2: applying `align_by_interpolation` with the reference mapping of the
test scenario — unaligned trial start times `[0, 1, ..., 9]` against
`linspace(3.23, 10 + 0.0001 * 10, 10)` — to the stored trial start times
returns exactly the aligned trial start times (exact rational equality, which
in particular is agreement to 5 decimal places), with no error. -/
theorem c2_end_to_end_alignment :
    align_by_interpolation ⟨[("start_time", unaligned_trial_start_times)]⟩
      aligned_trial_start_times unaligned_trial_start_times "start_time"
      = (⟨[("start_time", aligned_trial_start_times)]⟩, none) := by
  have hget : get_timestamps ⟨[("start_time", unaligned_trial_start_times)]⟩ "start_time"
      = some unaligned_trial_start_times := rfl
  have hlen : unaligned_trial_start_times.length = aligned_trial_start_times.length := rfl
  have hu : List.Chain' (· < ·) unaligned_trial_start_times := by
    norm_num [unaligned_trial_start_times, List.chain'_cons, List.chain'_singleton]
  have ha : List.Chain' (· < ·) aligned_trial_start_times := by
    norm_num [aligned_trial_start_times, List.chain'_cons, List.chain'_singleton]
  have hmap := map_interp_self unaligned_trial_start_times aligned_trial_start_times
    hlen hu ha
  rw [align_by_interpolation_get _ _ _ _ _ hget, hmap,
    align_timestamps_ok _ _ _ _ hget hlen.symm]
  rfl

/-- C3: calling `align_timestamps` with an array whose length differs from
the stored sequence's length fails with a LengthMismatch error and leaves the
interface state — hence the stored sequence — completely unchanged. -/
theorem c3_length_mismatch (d : DataInterface) (column : String)
    (ts aligned : Timestamps) (hget : get_timestamps d column = some ts)
    (hlen : aligned.length ≠ ts.length) :
    align_timestamps d aligned column = (d, some .lengthMismatch) := by
  unfold align_timestamps
  rw [hget]
  exact if_neg hlen

/-- Witness for C3 at a concrete input. -/
theorem c3_witness :
    align_timestamps ⟨[("t", [0])]⟩ [0, 1] "t"
      = (⟨[("t", [0])]⟩, some .lengthMismatch) :=
  c3_length_mismatch ⟨[("t", [0])]⟩ "t" [0] [0, 1] rfl (by norm_num)

/-- C5: reading an interface's timestamps and aligning with that very
sequence under the same selector is the identity — the interface state is
unchanged and no error is reported, so a subsequent `get_timestamps` returns
the same sequence. -/
theorem c5_direct_alignment_round_trip (d : DataInterface) (column : String)
    (ts : Timestamps) (hget : get_timestamps d column = some ts) :
    align_timestamps d ts column = (d, none) := by
  obtain ⟨cols⟩ := d
  have hget' : cols.lookup column = some ts := hget
  rw [align_timestamps_ok ⟨cols⟩ ts ts column hget rfl,
    set_column_lookup_eq cols column ts hget']

/-- Witness for C5 at a concrete input. -/
theorem c5_witness :
    align_timestamps ⟨[("t", [1, 2])]⟩ [1, 2] "t" = (⟨[("t", [1, 2])]⟩, none) :=
  c5_direct_alignment_round_trip ⟨[("t", [1, 2])]⟩ "t" [1, 2] rfl

/-- Applying an operation to one named registry entry leaves the entries
under every other name untouched. -/
theorem apply_first_frame :
    ∀ (l : List (String × DataInterface)) (na nb : String)
      (f : DataInterface → DataInterface × Option AlignError), na ≠ nb →
      (apply_first l na f).1.lookup nb = l.lookup nb := by
  intro l na nb f h
  induction l with
  | nil => rfl
  | cons p rest ih =>
      obtain ⟨k, d⟩ := p
      by_cases hk : k = na
      · subst hk
        have hbk : (nb == k) = false := beq_eq_false_iff_ne.mpr (Ne.symm h)
        simp only [apply_first, if_pos rfl, ite_true, List.lookup_cons, hbk]
      · simp only [apply_first, if_neg hk, List.lookup_cons]
        cases hbk : nb == k
        · exact ih
        · rfl

/-- Applying an operation to one named registry entry updates that entry to
the operation's result on its previous state — the operation sees only the
named interface's own state and its explicit arguments. -/
theorem apply_first_lookup_self :
    ∀ (l : List (String × DataInterface)) (na : String)
      (f : DataInterface → DataInterface × Option AlignError) (d : DataInterface),
      l.lookup na = some d →
      (apply_first l na f).1.lookup na = some (f d).1 := by
  intro l na f d h
  induction l with
  | nil => simp at h
  | cons p rest ih =>
      obtain ⟨k, e⟩ := p
      by_cases hk : k = na
      · subst hk
        rw [List.lookup_cons, beq_self_eq_true, Option.some.injEq] at h
        subst h
        simp only [apply_first, if_pos rfl, ite_true, List.lookup_cons, beq_self_eq_true]
      · have hbk : (na == k) = false := beq_eq_false_iff_ne.mpr (Ne.symm hk)
        rw [List.lookup_cons, hbk] at h
        simp only [apply_first, if_neg hk, List.lookup_cons, hbk]
        exact ih h

/-- C7: alignment on one registered interface never reads or modifies another
interface's private timestamp state: aligning interface `na` (directly or by
interpolation) leaves `get_timestamps` of any other interface `nb` unchanged,
and the new state of `na` is a function of its own previous state and the
explicit reference arrays alone. -/
theorem c7_alignment_frame (c : ConverterPipe) (na nb column column' : String)
    (ts aligned unaligned : Timestamps) (h : na ≠ nb) :
    (pipe_get_timestamps (pipe_align_timestamps c na ts column).1 nb column'
        = pipe_get_timestamps c nb column')
    ∧ (pipe_get_timestamps
          (pipe_align_by_interpolation c na aligned unaligned column).1 nb column'
        = pipe_get_timestamps c nb column')
    ∧ (∀ d, c.data_interface_objects.lookup na = some d →
        (pipe_align_timestamps c na ts column).1.data_interface_objects.lookup na
            = some (align_timestamps d ts column).1
        ∧ (pipe_align_by_interpolation c na aligned unaligned column).1.data_interface_objects.lookup na
            = some (align_by_interpolation d aligned unaligned column).1) := by
  refine ⟨?_, ?_, ?_⟩
  · unfold pipe_get_timestamps pipe_align_timestamps
    rw [apply_first_frame c.data_interface_objects na nb _ h]
  · unfold pipe_get_timestamps pipe_align_by_interpolation
    rw [apply_first_frame c.data_interface_objects na nb _ h]
  · intro d hd
    constructor
    · unfold pipe_align_timestamps
      exact apply_first_lookup_self c.data_interface_objects na _ d hd
    · unfold pipe_align_by_interpolation
      exact apply_first_lookup_self c.data_interface_objects na _ d hd

/-- Witness for C7 at a concrete two-interface registry. -/
theorem c7_witness :
    (pipe_get_timestamps
        (pipe_align_timestamps ⟨[("A", ⟨[("t", [0])]⟩), ("B", ⟨[("t", [1])]⟩)]⟩
          "A" [5] "t").1 "B" "t"
      = pipe_get_timestamps ⟨[("A", ⟨[("t", [0])]⟩), ("B", ⟨[("t", [1])]⟩)]⟩ "B" "t")
    ∧ (pipe_align_timestamps ⟨[("A", ⟨[("t", [0])]⟩), ("B", ⟨[("t", [1])]⟩)]⟩
          "A" [5] "t").1.data_interface_objects.lookup "A"
        = some (align_timestamps ⟨[("t", [0])]⟩ [5] "t").1 :=
  ⟨(c7_alignment_frame ⟨[("A", ⟨[("t", [0])]⟩), ("B", ⟨[("t", [1])]⟩)]⟩
      "A" "B" "t" "t" [5] [] [] (by decide)).1,
   ((c7_alignment_frame ⟨[("A", ⟨[("t", [0])]⟩), ("B", ⟨[("t", [1])]⟩)]⟩
      "A" "B" "t" "t" [5] [] [] (by decide)).2.2 ⟨[("t", [0])]⟩ rfl).1⟩

/-- Unfolding equation of the deep merge on two dictionary nodes. -/
theorem dict_deep_update_node (a b : List (String × Metadata)) :
    dict_deep_update (.node a) (.node b)
      = .node (merge_old a b ++ b.filter (fun q => (a.lookup q.1).isNone)) := rfl

/-- A later scalar leaf replaces any earlier value wholesale. -/
theorem dict_deep_update_leaf_right (a : Metadata) (s : String) :
    dict_deep_update a (.leaf s) = .leaf s := by
  cases a <;> rfl

/-- A later dictionary replaces an earlier scalar leaf wholesale. -/
theorem dict_deep_update_leaf_left (t : String) (b : Metadata) :
    dict_deep_update (.leaf t) b = b := by
  cases b <;> rfl

/-- Looking up a single-key path in a dictionary node is an entry lookup. -/
theorem lookup_path_single (es : List (String × Metadata)) (k : String) :
    lookup_path [k] (.node es) = es.lookup k := by
  cases h : es.lookup k <;> simp [lookup_path, h]

/-- Entry lookup distributes over list append, preferring the left list. -/
theorem lookup_append :
    ∀ (l₁ l₂ : List (String × Metadata)) (k : String),
      (l₁ ++ l₂).lookup k =
        match l₁.lookup k with
        | some v => some v
        | none => l₂.lookup k := by
  intro l₁ l₂ k
  induction l₁ with
  | nil => rfl
  | cons p rest ih =>
      obtain ⟨k0, v0⟩ := p
      simp only [List.cons_append, List.lookup_cons]
      cases hk : k == k0
      · exact ih
      · rfl

/-- Entry lookup in the merged-old part: a key found in the earlier
dictionary maps to its merged value; a key absent from it is absent here. -/
theorem lookup_merge_old :
    ∀ (a b : List (String × Metadata)) (k : String),
      (merge_old a b).lookup k =
        match a.lookup k with
        | some v =>
            match b.lookup k with
            | some w => some (dict_deep_update v w)
            | none => some v
        | none => none := by
  intro a b k
  induction a with
  | nil => rfl
  | cons p rest ih =>
      obtain ⟨k0, v0⟩ := p
      have e : merge_old ((k0, v0) :: rest) b =
          (match b.lookup k0 with
           | some w => (k0, dict_deep_update v0 w)
           | none => (k0, v0)) :: merge_old rest b := rfl
      cases hb : b.lookup k0 with
      | none =>
          rw [e, hb]
          simp only [List.lookup_cons]
          cases hk : k == k0
          · exact ih
          · have hkk : k = k0 := beq_iff_eq.mp hk
            subst hkk
            rw [hb]
      | some w =>
          rw [e, hb]
          simp only [List.lookup_cons]
          cases hk : k == k0
          · exact ih
          · have hkk : k = k0 := beq_iff_eq.mp hk
            subst hkk
            rw [hb]

/-- Keys absent from the earlier dictionary survive the later dictionary's
filter unchanged. -/
theorem lookup_filter_not_in :
    ∀ (b a : List (String × Metadata)) (k : String), a.lookup k = none →
      (b.filter (fun q => (a.lookup q.1).isNone)).lookup k = b.lookup k := by
  intro b
  induction b with
  | nil => intro a k ha; rfl
  | cons q rest ih =>
      intro a k ha
      obtain ⟨k1, w1⟩ := q
      by_cases hk : k = k1
      · subst hk
        have hp : (a.lookup (k, w1).1).isNone = true := by
          rw [ha]; rfl
        simp only [List.filter_cons, hp, if_pos, ite_true, List.lookup_cons,
          beq_self_eq_true]
      · have hbk : (k == k1) = false := beq_eq_false_iff_ne.mpr hk
        cases hp : ((a.lookup k1).isNone : Bool)
        · simp only [List.filter_cons, hp, Bool.false_eq_true, if_false,
            ite_false, List.lookup_cons, hbk]
          exact ih a k ha
        · simp only [List.filter_cons, hp, if_pos, ite_true, List.lookup_cons, hbk]
          exact ih a k ha

/-- Top-level lookup through the deep merge of two dictionary nodes: keys of
both are merged recursively by value, keys of only one side survive as they
were, and the later side wins when values cannot both be opened. -/
theorem lookup_path_update_node (a b : List (String × Metadata)) (k : String) :
    lookup_path [k] (dict_deep_update (.node a) (.node b)) =
      match a.lookup k with
      | some v =>
          match b.lookup k with
          | some w => some (dict_deep_update v w)
          | none => some v
      | none => b.lookup k := by
  rw [dict_deep_update_node, lookup_path_single, lookup_append, lookup_merge_old]
  cases ha : a.lookup k with
  | some v => cases hb : b.lookup k <;> rfl
  | none => exact lookup_filter_not_in b a k ha

/-- A scalar leaf reachable in the later metadata value is reachable at the
same path, with the same content, in the deep merge: last writer wins at
leaves. -/
theorem lookup_path_update_leaf_wins :
    ∀ (path : List String) (a b : Metadata) (s : String),
      lookup_path path b = some (.leaf s) →
      lookup_path path (dict_deep_update a b) = some (.leaf s) := by
  intro path
  induction path with
  | nil =>
      intro a b s hb
      rw [lookup_path] at hb
      rw [Option.some.injEq] at hb
      subst hb
      rw [dict_deep_update_leaf_right]
      rfl
  | cons j js ih =>
      intro a b s hb
      cases b with
      | leaf t => rw [lookup_path] at hb; cases hb
      | node bs =>
          rw [lookup_path] at hb
          cases hw : bs.lookup j with
          | none => rw [hw] at hb; cases hb
          | some w =>
              rw [hw] at hb
              cases a with
              | leaf t =>
                  rw [dict_deep_update_leaf_left, lookup_path, hw]
                  exact hb
              | node as =>
                  rw [dict_deep_update_node, lookup_path]
                  rw [lookup_append, lookup_merge_old]
                  cases hv : as.lookup j with
                  | some v =>
                      rw [hw]
                      exact ih v w s hb
                  | none =>
                      rw [lookup_filter_not_in bs as j hv, hw]
                      exact hb

/-- A key contributed only by the earlier metadata value below a path along
which both values are dictionaries keeps the earlier value's entry in the
deep merge: siblings of overlapping keys survive. -/
theorem lookup_path_update_old_sibling :
    ∀ (path : List String) (a b : Metadata) (as bs : List (String × Metadata))
      (k : String) (v : Metadata),
      lookup_path path a = some (.node as) →
      lookup_path path b = some (.node bs) →
      as.lookup k = some v → bs.lookup k = none →
      lookup_path (path ++ [k]) (dict_deep_update a b) = some v := by
  intro path
  induction path with
  | nil =>
      intro a b as bs k v ha hb hv hn
      rw [lookup_path, Option.some.injEq] at ha hb
      subst ha
      subst hb
      rw [List.nil_append, lookup_path_update_node, hv, hn]
  | cons j js ih =>
      intro a b as bs k v ha hb hv hn
      cases a with
      | leaf t => rw [lookup_path] at ha; cases ha
      | node aes =>
          cases b with
          | leaf t => rw [lookup_path] at hb; cases hb
          | node bes =>
              rw [lookup_path] at ha hb
              cases hja : aes.lookup j with
              | none => rw [hja] at ha; cases ha
              | some va =>
                  rw [hja] at ha
                  cases hjb : bes.lookup j with
                  | none => rw [hjb] at hb; cases hb
                  | some vb =>
                      rw [hjb] at hb
                      rw [List.cons_append, dict_deep_update_node, lookup_path]
                      rw [lookup_append, lookup_merge_old, hja, hjb]
                      exact ih va vb as bs k v ha hb hv hn

/-- C4: the orchestrator's deep metadata merge.  With disjoint top-level keys
the merged dictionary contains the union of both inputs; with overlapping
nested keys, any scalar leaf of the later dictionary survives at its full
path, while keys contributed only by the earlier dictionary below a shared
dictionary path keep the earlier value — recursive deep merge with
last-writer-wins at leaves. -/
theorem c4_metadata_deep_merge (a b : List (String × Metadata)) :
    ((∀ k, a.lookup k = none ∨ b.lookup k = none) →
      ∀ k v,
        (a.lookup k = some v →
          lookup_path [k] (dict_deep_update (.node a) (.node b)) = some v)
        ∧ (b.lookup k = some v →
          lookup_path [k] (dict_deep_update (.node a) (.node b)) = some v))
    ∧ (∀ (path : List String) (s : String),
        lookup_path path (.node b) = some (.leaf s) →
        lookup_path path (dict_deep_update (.node a) (.node b)) = some (.leaf s))
    ∧ (∀ (path : List String) (as bs : List (String × Metadata)) (k : String)
        (v : Metadata),
        lookup_path path (.node a) = some (.node as) →
        lookup_path path (.node b) = some (.node bs) →
        as.lookup k = some v → bs.lookup k = none →
        lookup_path (path ++ [k]) (dict_deep_update (.node a) (.node b)) = some v) := by
  refine ⟨?_, ?_, ?_⟩
  · intro hdisj k v
    constructor
    · intro ha
      rw [lookup_path_update_node, ha]
      rcases hdisj k with h | h
      · rw [h] at ha; cases ha
      · rw [h]
    · intro hb
      rw [lookup_path_update_node, hb]
      rcases hdisj k with h | h
      · rw [h]
      · rw [h] at hb; cases hb
  · intro path s hb
    exact lookup_path_update_leaf_wins path (.node a) (.node b) s hb
  · intro path as bs k v ha hb hv hn
    exact lookup_path_update_old_sibling path (.node a) (.node b) as bs k v ha hb hv hn

/-- Witness for C4 at concrete metadata dictionaries. -/
theorem c4_witness :
    lookup_path ["x"]
        (dict_deep_update (.node [("x", .leaf "1")]) (.node [("y", .leaf "2")]))
      = some (.leaf "1")
    ∧ lookup_path ["y"]
        (dict_deep_update (.node [("x", .leaf "1")]) (.node [("y", .leaf "2")]))
      = some (.leaf "2")
    ∧ lookup_path ["k", "s2"]
        (dict_deep_update
          (.node [("k", .node [("s1", .leaf "a"), ("s2", .leaf "b")])])
          (.node [("k", .node [("s2", .leaf "z")])]))
      = some (.leaf "z")
    ∧ lookup_path ["k", "s1"]
        (dict_deep_update
          (.node [("k", .node [("s1", .leaf "a"), ("s2", .leaf "b")])])
          (.node [("k", .node [("s2", .leaf "z")])]))
      = some (.leaf "a") := by
  have hdisj : ∀ k, ([("x", Metadata.leaf "1")]).lookup k = none
      ∨ ([("y", Metadata.leaf "2")]).lookup k = none := by
    intro k
    by_cases hx : k = "x"
    · subst hx
      right
      rfl
    · left
      rw [List.lookup_cons, beq_eq_false_iff_ne.mpr hx]
      rfl
  refine ⟨((c4_metadata_deep_merge [("x", .leaf "1")] [("y", .leaf "2")]).1
      hdisj "x" (.leaf "1")).1 rfl,
    ((c4_metadata_deep_merge [("x", .leaf "1")] [("y", .leaf "2")]).1
      hdisj "y" (.leaf "2")).2 rfl,
    (c4_metadata_deep_merge
        [("k", .node [("s1", .leaf "a"), ("s2", .leaf "b")])]
        [("k", .node [("s2", .leaf "z")])]).2.1 ["k", "s2"] "z" rfl,
    (c4_metadata_deep_merge
        [("k", .node [("s1", .leaf "a"), ("s2", .leaf "b")])]
        [("k", .node [("s2", .leaf "z")])]).2.2 ["k"]
      [("s1", .leaf "a"), ("s2", .leaf "b")] [("s2", .leaf "z")]
      "s1" (.leaf "a") rfl rfl rfl rfl⟩

/-- C6 (amended): writing to a path where a file already exists.  With
`overwrite=False` the second call does not fail: it is append mode — the
existing file is loaded and the result is the existing contents followed by
the newly added data.  With `overwrite=True` the existing file is fully
replaced by the new output built from the fresh metadata file, independent of
the previous contents. -/
theorem c6_overwrite_append_semantics (f fresh : NWBFile) (blocks : List String) :
    run_conversion (some f) false fresh (append_body blocks)
        = ((some ⟨f.contents ++ blocks⟩, none), [.acquire, .release])
    ∧ run_conversion (some f) true fresh (append_body blocks)
        = ((some ⟨fresh.contents ++ blocks⟩, none), [.acquire, .release]) :=
  ⟨rfl, rfl⟩

/-- Counterexample to C6 as stated: a second conversion to a path holding
`["old"]` with `overwrite=False` surfaces no error — it does not fail — and
leaves the path holding `["old", "new"]`, so the existing file is modified
rather than left untouched. -/
theorem c6_counterexample :
    (run_conversion (some ⟨["old"]⟩) false ⟨[]⟩ (append_body ["new"])).1.2 = none
    ∧ (run_conversion (some ⟨["old"]⟩) false ⟨[]⟩ (append_body ["new"])).1.1
        = some ⟨["old", "new"]⟩
    ∧ some (⟨["old", "new"]⟩ : NWBFile) ≠ some (⟨["old"]⟩ : NWBFile) := by
  refine ⟨rfl, rfl, ?_⟩
  decide

/-- C9: the output container acquired by the `make_or_load_nwbfile` context
inside `run_conversion` is released on every exit path — the resource trace
is acquire-then-release whether the `add_to_nwbfile` body succeeds or
raises. -/
theorem c9_resource_release (existing : Option NWBFile) (overwrite : Bool)
    (fresh : NWBFile) (add : NWBFile → Except ConversionError NWBFile) :
    (run_conversion existing overwrite fresh add).2
      = [ResourceEvent.acquire, ResourceEvent.release] := by
  cases h : add (if overwrite then fresh else existing.getD fresh) <;>
    simp [run_conversion, h]

/-- C8 (amended): errors raised during conversion are surfaced to the caller
unchanged; the numeric-parse fallbacks of the metadata-extraction form
adapters substitute the sentinel `0.0` for every unparsable numeric field,
but only the optical-channel `emission_lambda` fallback prints a warning —
the imaging-plane fallbacks substitute the sentinel silently. -/
theorem c8_error_surfacing :
    (∀ (existing : Option NWBFile) (overwrite : Bool) (fresh : NWBFile)
      (e : ConversionError),
        (run_conversion existing overwrite fresh (fun _ => .error e)).1.2 = some e)
    ∧ (∀ f : OpticalChannelForm, float_of_text f.emission_lambda = none →
        optical_channel_read_fields f
          = (⟨f.name, f.description, 0⟩, ["emission_lambda must be a float"]))
    ∧ (∀ f : ImagingPlaneForm,
        (float_of_text f.excitation_lambda = none →
          (imaging_plane_read_fields f).1.excitation_lambda = 0)
        ∧ (float_of_text f.imaging_rate = none →
          (imaging_plane_read_fields f).1.imaging_rate = 0)
        ∧ (float_of_text f.conversion = none →
          (imaging_plane_read_fields f).1.conversion = 0)
        ∧ (imaging_plane_read_fields f).2 = []) := by
  refine ⟨?_, ?_, ?_⟩
  · intro existing overwrite fresh e
    unfold run_conversion
    rfl
  · intro f h
    unfold optical_channel_read_fields
    rw [h]
  · intro f
    refine ⟨?_, ?_, ?_, rfl⟩
    · intro h
      unfold imaging_plane_read_fields
      rw [h]
      rfl
    · intro h
      unfold imaging_plane_read_fields
      rw [h]
      rfl
    · intro h
      unfold imaging_plane_read_fields
      rw [h]
      rfl

/-- Counterexample to C8 as stated: a concrete imaging-plane form whose
`excitation_lambda` text is unparsable gets the sentinel `0.0` substituted
while the print log stays empty — no warning is logged for this unparsable
numeric field. -/
theorem c8_counterexample :
    imaging_plane_read_fields
        ⟨"ImagingPlane", "description", .unparsable "abc", .numeric 1,
          "indicator", "location", .numeric 1, "meters"⟩
      = (⟨"ImagingPlane", "description", 0, 1, "indicator", "location", 1,
          "meters"⟩, []) := rfl

/-- Witness for C8 at concrete inputs, with all three imaging-plane numeric
fields unparsable. -/
theorem c8_witness :
    (run_conversion none false ⟨[]⟩ (fun _ => .error (.failure "boom"))).1.2
        = some (.failure "boom")
    ∧ optical_channel_read_fields ⟨"OpticalChannel", "description", .unparsable "xyz"⟩
        = (⟨"OpticalChannel", "description", 0⟩, ["emission_lambda must be a float"])
    ∧ (imaging_plane_read_fields
          ⟨"ImagingPlane", "description", .unparsable "xyz", .unparsable "uvw",
            "indicator", "location", .unparsable "pqr", "meters"⟩).1.excitation_lambda = 0
    ∧ (imaging_plane_read_fields
          ⟨"ImagingPlane", "description", .unparsable "xyz", .unparsable "uvw",
            "indicator", "location", .unparsable "pqr", "meters"⟩).1.imaging_rate = 0
    ∧ (imaging_plane_read_fields
          ⟨"ImagingPlane", "description", .unparsable "xyz", .unparsable "uvw",
            "indicator", "location", .unparsable "pqr", "meters"⟩).1.conversion = 0
    ∧ (imaging_plane_read_fields
          ⟨"ImagingPlane", "description", .unparsable "xyz", .unparsable "uvw",
            "indicator", "location", .unparsable "pqr", "meters"⟩).2 = [] :=
  ⟨c8_error_surfacing.1 none false ⟨[]⟩ (.failure "boom"),
   c8_error_surfacing.2.1 ⟨"OpticalChannel", "description", .unparsable "xyz"⟩ rfl,
   (c8_error_surfacing.2.2
      ⟨"ImagingPlane", "description", .unparsable "xyz", .unparsable "uvw",
        "indicator", "location", .unparsable "pqr", "meters"⟩).1 rfl,
   (c8_error_surfacing.2.2
      ⟨"ImagingPlane", "description", .unparsable "xyz", .unparsable "uvw",
        "indicator", "location", .unparsable "pqr", "meters"⟩).2.1 rfl,
   (c8_error_surfacing.2.2
      ⟨"ImagingPlane", "description", .unparsable "xyz", .unparsable "uvw",
        "indicator", "location", .unparsable "pqr", "meters"⟩).2.2.1 rfl,
   (c8_error_surfacing.2.2
      ⟨"ImagingPlane", "description", .unparsable "xyz", .unparsable "uvw",
        "indicator", "location", .unparsable "pqr", "meters"⟩).2.2.2⟩

/-- C10: construction of `ScanImageImagingInterface`.  When
`state.acq.frameRate` is present in the extracted tiff metadata, the sampling
frequency used is exactly its parsed value and the fallback argument is
ignored; when the key is absent and no fallback is supplied, construction
fails with an assertion error before the extractor state exists; when the key
is absent and a fallback is supplied, the fallback is used. -/
theorem c10_scanimage_sampling_frequency (md : List (String × ℚ)) :
    (∀ v : ℚ, md.lookup "state.acq.frameRate" = some v →
        ∀ fb : Option ℚ, scanimage_init true md fb = .ok ⟨v⟩)
    ∧ (md.lookup "state.acq.frameRate" = none →
        scanimage_init true md none = .error .assertionNoSamplingFrequency)
    ∧ (md.lookup "state.acq.frameRate" = none →
        ∀ f : ℚ, scanimage_init true md (some f) = .ok ⟨f⟩) := by
  refine ⟨?_, ?_, ?_⟩
  · intro v hv fb
    unfold scanimage_init
    rw [if_pos rfl, hv]
  · intro h
    unfold scanimage_init
    rw [if_pos rfl, h]
  · intro h f
    unfold scanimage_init
    rw [if_pos rfl, h]

/-- Witness for C10 at concrete metadata. -/
theorem c10_witness :
    scanimage_init true [("state.acq.frameRate", 30)] (some 5) = .ok ⟨30⟩
    ∧ scanimage_init true [] none = .error .assertionNoSamplingFrequency
    ∧ scanimage_init true [] (some 7) = .ok ⟨7⟩ :=
  ⟨(c10_scanimage_sampling_frequency [("state.acq.frameRate", 30)]).1 30 rfl (some 5),
   (c10_scanimage_sampling_frequency []).2.1 rfl,
   (c10_scanimage_sampling_frequency []).2.2 rfl 7⟩

end Neuroconv
